import Mathlib

/-!
Shallow embedding of the `pytorch_playground` training core:
`src/rnn/rnn_classify.py` (`SequenceIterator`) and `src/core/loop.py`
(`Loop`, `Phase`, `Stepper`).  Tensors are modelled as lists of rows
(`List (List ℤ)`), machine floats as `ℚ`, and the two random draws used by
`get_sequence_length` (one uniform sample and one standardized normal
sample) are passed in explicitly.
-/

namespace PP

/-- Semantics of `tensor.view(r, -1)` on a 1-D tensor holding `xs`:
row `i` is the contiguous chunk `xs[i*c : (i+1)*c]`. -/
def tensorView2 (r c : ℕ) (xs : List ℤ) : List (List ℤ) :=
  (List.range r).map (fun i => (xs.drop (i * c)).take c)

/-- Semantics of `tensor.t()` on a rectangular 2-D tensor: entry `(j, i)` of
the result is entry `(i, j)` of the argument.  The column count is read off
the first row; the default `0` is never reached on rectangular input. -/
def tensorT (m : List (List ℤ)) : List (List ℤ) :=
  (List.range (m.headD []).length).map (fun j => m.map (fun row => row.getD j 0))

/-- The target emitted by `SequenceIterator.get_batch`: a 2-D block, or a 1-D
row-major flattening of it when `flatten_target` is set (`y.view(-1)`). -/
inductive Target where
  | mat : List (List ℤ) → Target
  | flat : List ℤ → Target
deriving DecidableEq

/-- Python `int(q)` on a real value: truncation toward zero. -/
def pyInt (q : ℚ) : ℤ := if 0 ≤ q then ⌊q⌋ else ⌈q⌉

/-- State of `SequenceIterator` (rnn_classify.py).  `random_length` is
`Option Bool` because the Python attribute can be `None`, `True` or `False`
and `get_sequence_length` tests `random_length is None`. -/
structure SequenceIterator where
  bptt : ℕ
  split_size : ℕ
  random_length : Option Bool
  flatten_target : Bool
  batches : List (List ℤ)
  curr_iter : ℕ
  curr_line : ℕ
  total_lines : ℕ
  total_iters : ℤ
deriving DecidableEq

/-- `SequenceIterator.__init__`: `n_batches = len(seq) // split_size`,
truncate, `view(split_size, -1).t()`, counters zeroed,
`total_iters = total_lines // bptt - 1` (Python ints, so it can be `-1`). -/
def SequenceIterator.make (seq : List ℤ) (bptt split_size : ℕ)
    (random_length : Option Bool) (flatten_target : Bool) : SequenceIterator :=
  let n_batches := seq.length / split_size
  let truncated := seq.take (n_batches * split_size)
  let batches := tensorT (tensorView2 split_size n_batches truncated)
  { bptt := bptt
    split_size := split_size
    random_length := random_length
    flatten_target := flatten_target
    batches := batches
    curr_iter := 0
    curr_line := 0
    total_lines := batches.length
    total_iters := ((batches.length / bptt : ℕ) : ℤ) - 1 }

/-- The `completed` property: `curr_line >= total_lines - 1` or
`curr_iter >= total_iters`, evaluated over Python ints. -/
def SequenceIterator.completed (it : SequenceIterator) : Bool :=
  if (it.curr_line : ℤ) ≥ (it.total_lines : ℤ) - 1 then true
  else if (it.curr_iter : ℤ) ≥ it.total_iters then true
  else false

/-- `get_sequence_length`, with the two random draws explicit: `u` is the
`np.random.random()` sample and `eps` the standardized normal sample, so
`np.random.normal(bptt, 5)` is `bptt + 5 * eps`.  Note the source tests
`random_length is None`, not its truth value. -/
def SequenceIterator.get_sequence_length (it : SequenceIterator) (u eps : ℚ) : ℤ :=
  match it.random_length with
  | none => (it.bptt : ℤ)
  | some _ =>
    let bptt : ℚ := if u ≥ 19 / 20 then (it.bptt : ℚ) / 2 else (it.bptt : ℚ)
    max 5 (pyInt (bptt + 5 * eps))

/-- The capped window length computed inside `get_batch`:
`seq_len = min(seq_len, self.total_lines - 1 - i)` over Python ints, clamped
to `ℕ` because a negative length slices to an empty list anyway. -/
def SequenceIterator.cappedLen (it : SequenceIterator) (seq_len : ℤ) : ℕ :=
  (min seq_len ((it.total_lines : ℤ) - 1 - (it.curr_line : ℤ))).toNat

/-- `get_batch`: cap the window at `total_lines - 1 - curr_line`, slice the
input block and the one-row-shifted target block, flatten the target when
`flatten_target` is set. -/
def SequenceIterator.get_batch (it : SequenceIterator) (seq_len : ℤ) :
    List (List ℤ) × Target :=
  let i := it.curr_line
  let len := it.cappedLen seq_len
  let X := (it.batches.drop i).take len
  let y := (it.batches.drop (i + 1)).take len
  (X, if it.flatten_target then Target.flat y.flatten else Target.mat y)

/-- `next()`: `StopIteration` becomes `none`; otherwise draw a length, emit
the batch, advance `curr_line` by the drawn (uncapped) length and bump
`curr_iter`. -/
def SequenceIterator.next (it : SequenceIterator) (u eps : ℚ) :
    Option ((List (List ℤ) × Target) × SequenceIterator) :=
  if it.completed then none
  else
    let seq_len := it.get_sequence_length u eps
    let batch := it.get_batch seq_len
    some (batch, { it with
      curr_line := it.curr_line + seq_len.toNat
      curr_iter := it.curr_iter + 1 })

/-- `__iter__`: reset both cursors, keep the reshaped matrix. -/
def SequenceIterator.iterStart (it : SequenceIterator) : SequenceIterator :=
  { it with curr_line := 0, curr_iter := 0 }

/-! Embedding of `src/core/loop.py`.  Callbacks are abstracted as a function
that receives each lifecycle event and may read and rewrite the loop's
`stop` flag; the event trace is recorded by the loop itself. -/

/-- Lifecycle events fired through the `CallbackGroup`. -/
inductive Ev where
  | trainingStart
  | trainingEnd
  | epochStart (epoch : ℕ) (phase : String)
  | epochEnd (epoch : ℕ) (phase : String)
  | batchStart (epoch : ℕ) (phase : String)
  | batchEnd (epoch : ℕ) (phase : String)
deriving DecidableEq

/-- The epoch index an event is tagged with, if any. -/
def Ev.epochIdx : Ev → Option ℕ
  | .trainingStart => none
  | .trainingEnd => none
  | .epochStart e _ => some e
  | .epochEnd e _ => some e
  | .batchStart e _ => some e
  | .batchEnd e _ => some e

/-- Loop-visible mutable state: the `stop` flag plus the trace of events
fired so far. -/
structure RunState where
  stop : Bool
  events : List Ev
deriving DecidableEq

/-- Fire one lifecycle event: the callback group may rewrite `stop`, and the
event is appended to the trace. -/
def fire (cb : Ev → Bool → Bool) (e : Ev) (s : RunState) : RunState :=
  { stop := cb e s.stop, events := s.events ++ [e] }

/-- Per-phase mutable state from `Phase`: `avg_loss` and `batch_num`. -/
structure PhaseState where
  avg_loss : ℚ
  batch_num : ℕ
deriving DecidableEq

/-- The inner `for x, y in phase.dataset` loop of `Loop.run`: bump
`batch_num`, fire batch-start, step, fold the loss into `avg_loss` with
weight `a`, fire batch-end. -/
def batchLoop {X Y : Type} (cb : Ev → Bool → Bool) (step : X → Y → Bool → ℚ)
    (a : ℚ) (epoch : ℕ) (nm : String) (isT : Bool) :
    List (X × Y) → RunState × PhaseState → RunState × PhaseState
  | [], st => st
  | (x, y) :: rest, (s, p) =>
    let p1 : PhaseState := { p with batch_num := p.batch_num + 1 }
    let s1 := fire cb (.batchStart epoch nm) s
    let loss := step x y isT
    let p2 : PhaseState := { p1 with avg_loss := p1.avg_loss * a + loss * (1 - a) }
    let s2 := fire cb (.batchEnd epoch nm) s1
    batchLoop cb step a epoch nm isT rest (s2, p2)

/-- One phase of one epoch: fire epoch-start, compute
`is_training = (name == "train")`, run all batches, fire epoch-end. -/
def phaseRun {X Y : Type} (cb : Ev → Bool → Bool) (step : X → Y → Bool → ℚ)
    (a : ℚ) (epoch : ℕ) (nm : String) (data : List (X × Y))
    (s : RunState) (p : PhaseState) : RunState × PhaseState :=
  let s0 := fire cb (.epochStart epoch nm) s
  let isT := nm == "train"
  let r := batchLoop cb step a epoch nm isT data (s0, p)
  (fire cb (.epochEnd epoch nm) r.1, r.2)

/-- Full loop state threaded through the epochs: run state plus the two
`Phase` objects, in order `[train, valid]`. -/
structure LoopState where
  rs : RunState
  train : PhaseState
  valid : PhaseState
deriving DecidableEq

/-- The body of one epoch: both phases, in order, with no `stop` check
anywhere inside. -/
def runEpoch {X Y : Type} (cb : Ev → Bool → Bool) (step : X → Y → Bool → ℚ)
    (a : ℚ) (trainData validData : List (X × Y)) (epoch : ℕ)
    (st : LoopState) : LoopState :=
  let r1 := phaseRun cb step a epoch "train" trainData st.rs st.train
  let r2 := phaseRun cb step a epoch "valid" validData r1.1 st.valid
  ⟨r2.1, r1.2, r2.2⟩

/-- The `for epoch in range(epochs)` loop: before each epoch the `stop`
flag is tested and, when set, the remaining epochs are abandoned. -/
def loopEpochs {X Y : Type} (cb : Ev → Bool → Bool) (step : X → Y → Bool → ℚ)
    (a : ℚ) (trainData validData : List (X × Y)) :
    List ℕ → LoopState → LoopState
  | [], st => st
  | e :: rest, st =>
    if st.rs.stop then st
    else loopEpochs cb step a trainData validData rest
      (runEpoch cb step a trainData validData e st)

/-- `Loop.run`: build fresh phases, fire training-start, run the epoch loop
over `range epochs`, fire training-end.  `stop0` is the loop's `stop`
attribute on entry (`False` right after construction). -/
def Loop.run {X Y : Type} (cb : Ev → Bool → Bool) (step : X → Y → Bool → ℚ)
    (a : ℚ) (trainData validData : List (X × Y)) (epochs : ℕ)
    (stop0 : Bool) : LoopState :=
  let s1 := fire cb .trainingStart ⟨stop0, []⟩
  let st := loopEpochs cb step a trainData validData (List.range epochs)
    ⟨s1, ⟨0, 0⟩, ⟨0, 0⟩⟩
  { st with rs := fire cb .trainingEnd st.rs }

/-- Default of the `alpha` parameter of `Loop.__init__`. -/
def Loop.alphaDefault : ℚ := 49 / 50

/-- The `stop` flag as set by `Loop.__init__`. -/
def Loop.initStop : Bool := false

/-! Embedding of `Stepper`.  The model, loss, optimizer and schedule are
abstract parameters; gradient accumulation is part of the optimizer
state `O`. -/

/-- Mutable state owned by a `Stepper`: model parameters, optimizer state
(including accumulated gradients) and the schedule's `last_epoch` counter. -/
structure StepperState (P O : Type) where
  params : P
  opt : O
  schedLast : ℤ
deriving DecidableEq

/-- `Stepper.__init__`: if the schedule has never stepped
(`last_epoch == -1`), advance it once. -/
def Stepper.make {P O : Type} (schedStep : ℤ → ℤ) (params : P) (opt : O)
    (schedLast : ℤ) : StepperState P O :=
  { params := params, opt := opt
    schedLast := if schedLast = -1 then schedStep schedLast else schedLast }

/-- `Stepper.step`: forward pass and loss in both modes; gradient clearing,
backward pass, optimizer update and schedule advance only when `train` is
true.  Returns `loss.item()` (a plain scalar) and the stepper state after
the call. -/
def Stepper.step {P O X Y Z : Type} (model : P → X → Z) (lossFn : Z → Y → ℚ)
    (zeroGrad : O → O) (backward : P → O → O) (optStep : P → O → P × O)
    (schedStep : ℤ → ℤ) (st : StepperState P O) (x : X) (y : Y)
    (train : Bool) : ℚ × StepperState P O :=
  let out := model st.params x
  let loss := lossFn out y
  if train then
    let o1 := zeroGrad st.opt
    let o2 := backward st.params o1
    let (p3, o3) := optStep st.params o2
    (loss, { params := p3, opt := o3, schedLast := schedStep st.schedLast })
  else
    (loss, st)

/-! Derived trace vocabulary and concrete instances used by the theorems
below. -/

/-- The events fired while iterating one phase's dataset: a batch-start and
a batch-end per batch. -/
def batchEvents {X Y : Type} (epoch : ℕ) (nm : String) (data : List (X × Y)) : List Ev :=
  (data.map (fun _ => [Ev.batchStart epoch nm, Ev.batchEnd epoch nm])).flatten

/-- The full event block fired by one epoch of `Loop.run`: both phases in
order, with no stop check in between. -/
def epochEvents {X Y : Type} (epoch : ℕ) (trainData validData : List (X × Y)) : List Ev :=
  [Ev.epochStart epoch "train"] ++ batchEvents epoch "train" trainData
    ++ [Ev.epochEnd epoch "train"]
    ++ [Ev.epochStart epoch "valid"] ++ batchEvents epoch "valid" validData
    ++ [Ev.epochEnd epoch "valid"]

/-- The loop state reached by `Loop.run` (started with `stop = False`) just
before the top-of-loop stop check of epoch `k`. -/
def stateBeforeEpoch {X Y : Type} (cb : Ev → Bool → Bool) (step : X → Y → Bool → ℚ)
    (a : ℚ) (trainData validData : List (X × Y)) (k : ℕ) : LoopState :=
  loopEpochs cb step a trainData validData (List.range k)
    ⟨fire cb .trainingStart ⟨false, []⟩, ⟨0, 0⟩, ⟨0, 0⟩⟩

/-- Modelled from the spec: `CallbackGroup` lives in `src/core/callbacks.py`,
which is not in the source tree.  Per §4.3 the group only ever SETS the
owning loop's `stop` flag (when some handler returns a truthy stop signal);
it never clears it.  So a callback group's action on the flag preserves
`true`. -/
def CallbackGroup.monotone (cb : Ev → Bool → Bool) : Prop :=
  ∀ e : Ev, cb e true = true

/-- A concrete mid-pass iterator state: 6 tokens in 2 lanes (3 lines per
lane), `bptt = 1`, no randomization, row cursor on line 1. -/
def itMid : SequenceIterator :=
  { SequenceIterator.make [0, 1, 2, 3, 4, 5] 1 2 none true with curr_line := 1 }

/-- A freshly constructed iterator: 6 tokens in 2 lanes, `bptt = 1`. -/
def itFresh : SequenceIterator :=
  SequenceIterator.make [0, 1, 2, 3, 4, 5] 1 2 none true

/-- Like `itMid` but with window randomization on (`random_length = True`). -/
def itMidR : SequenceIterator :=
  { SequenceIterator.make [0, 1, 2, 3, 4, 5] 1 2 (some true) true with curr_line := 1 }

/-- A callback that requests a stop when the first batch of epoch 0's train
phase starts, and otherwise leaves the flag alone. -/
def cbStopAtFirstBatch : Ev → Bool → Bool :=
  fun e b => if e = Ev.batchStart 0 "train" then true else b

/-- A callback group with no observers: every event leaves the flag alone. -/
def cbNone : Ev → Bool → Bool := fun _ b => b

/-- A stepper stub whose loss is constantly 1. -/
def stepOne : ℕ → ℕ → Bool → ℚ := fun _ _ _ => 1

/-! Helper lemmas about the tensor semantics. -/

theorem map_getD_range {α : Type} (d : α) :
    ∀ l : List α, (List.range l.length).map (fun i => l.getD i d) = l
  | [] => rfl
  | a :: l => by
    rw [List.length_cons, List.range_succ_eq_map, List.map_cons, List.map_map]
    simp only [Function.comp_def, List.getD_cons_zero, List.getD_cons_succ,
      Nat.succ_eq_add_one]
    rw [map_getD_range d l]

theorem getD_map_of_lt {α β : Type} (f : α → β) (l : List α) (i : ℕ)
    (hi : i < l.length) (d : β) (d' : α) :
    (l.map f).getD i d = f (l.getD i d') := by
  rw [List.getD_eq_getElem (l.map f) d (by simpa using hi),
    List.getD_eq_getElem l d' hi]
  simp

theorem tensorView2_row_length {r c : ℕ} {xs : List ℤ} (hlen : r * c ≤ xs.length) :
    ∀ row ∈ tensorView2 r c xs, row.length = c := by
  intro row hrow
  simp only [tensorView2, List.mem_map, List.mem_range] at hrow
  obtain ⟨i, hi, rfl⟩ := hrow
  simp only [List.length_take, List.length_drop]
  have h1 : (i + 1) * c ≤ r * c := Nat.mul_le_mul_right c hi
  rw [Nat.succ_mul] at h1
  omega

theorem flatten_range_chunks (xs : List ℤ) (n : ℕ) :
    ∀ L : ℕ,
      ((List.range L).map (fun i => (xs.drop (i * n)).take n)).flatten = xs.take (L * n)
  | 0 => by simp
  | L + 1 => by
    rw [List.range_succ, List.map_append, List.flatten_append,
      flatten_range_chunks xs n L, Nat.succ_mul, List.take_add]
    simp

theorem tensorT_row_length (m : List (List ℤ)) :
    ∀ row ∈ tensorT m, row.length = m.length := by
  intro row hrow
  simp only [tensorT, List.mem_map, List.mem_range] at hrow
  obtain ⟨j, _, rfl⟩ := hrow
  simp

theorem tensorT_length (m : List (List ℤ)) :
    (tensorT m).length = (m.headD []).length := by
  simp [tensorT]

theorem tensorT_tensorT {m : List (List ℤ)} {c : ℕ} (hc : 0 < c)
    (hrect : ∀ row ∈ m, row.length = c) : tensorT (tensorT m) = m := by
  cases m with
  | nil => simp [tensorT]
  | cons r0 rest =>
    have hr0 : r0.length = c := hrect r0 (List.mem_cons_self r0 rest)
    obtain ⟨c', rfl⟩ : ∃ c', c = c' + 1 := ⟨c - 1, by omega⟩
    have hT1 : tensorT (r0 :: rest) =
        (List.range (c' + 1)).map
          (fun j => (r0 :: rest).map (fun row => row.getD j 0)) := by
      simp only [tensorT, List.headD_cons, hr0]
    have hhead : (tensorT (r0 :: rest)).headD [] =
        (r0 :: rest).map (fun row => row.getD 0 0) := by
      rw [hT1, List.range_succ_eq_map]
      rfl
    conv_rhs => rw [← map_getD_range ([] : List ℤ) (r0 :: rest)]
    show (List.range ((tensorT (r0 :: rest)).headD []).length).map
        (fun i => (tensorT (r0 :: rest)).map (fun row => row.getD i 0)) = _
    rw [hhead, List.length_map]
    apply List.map_congr_left
    intro i hi
    rw [List.mem_range] at hi
    simp only [hT1, List.map_map]
    have hmem : (r0 :: rest).getD i [] ∈ r0 :: rest := by
      rw [List.getD_eq_getElem _ _ hi]
      exact List.getElem_mem hi
    have hRow : ((r0 :: rest).getD i []).length = c' + 1 := hrect _ hmem
    calc (List.range (c' + 1)).map
          ((fun row => row.getD i 0) ∘ fun j => (r0 :: rest).map (fun row => row.getD j 0))
        = (List.range (c' + 1)).map (fun j => ((r0 :: rest).getD i []).getD j 0) := by
          apply List.map_congr_left
          intro j _
          exact getD_map_of_lt _ _ _ hi _ _
      _ = (r0 :: rest).getD i [] := by rw [← hRow, map_getD_range]

/-- C5: for every token sequence and lane count `L ≥ 1`, construction
computes `lines_per_lane = ⌊N / L⌋`, the reshaped matrix has
`lines_per_lane` rows of `L` lanes each, and flattening the matrix
column-major (reading it transposed, row-major) recovers exactly the first
`lines_per_lane * L` tokens of the original sequence in order — the
trailing remainder is discarded. -/
theorem make_reshape_colMajor (seq : List ℤ) (bptt L : ℕ) (rand : Option Bool)
    (flat : Bool) (hL : 1 ≤ L) :
    (SequenceIterator.make seq bptt L rand flat).total_lines = seq.length / L ∧
    (SequenceIterator.make seq bptt L rand flat).batches.length = seq.length / L ∧
    (∀ row ∈ (SequenceIterator.make seq bptt L rand flat).batches, row.length = L) ∧
    (tensorT (SequenceIterator.make seq bptt L rand flat).batches).flatten
      = seq.take (seq.length / L * L) := by
  have hmake : (SequenceIterator.make seq bptt L rand flat).batches
      = tensorT (tensorView2 L (seq.length / L) (seq.take (seq.length / L * L))) := rfl
  have htl : (SequenceIterator.make seq bptt L rand flat).total_lines
      = (SequenceIterator.make seq bptt L rand flat).batches.length := rfl
  set n := seq.length / L with hn
  set xs := seq.take (n * L) with hxs0
  have hxs : xs.length = n * L := by
    rw [hxs0, List.length_take]
    exact Nat.min_eq_left (Nat.div_mul_le_self seq.length L)
  have hVlen : (tensorView2 L n xs).length = L := by simp [tensorView2]
  have hrect : ∀ row ∈ tensorView2 L n xs, row.length = n :=
    tensorView2_row_length (by rw [hxs, Nat.mul_comm])
  rcases Nat.eq_zero_or_pos n with hn0 | hnpos
  · have hV0 : ((tensorView2 L n xs).headD []).length = 0 := by
      cases hV : tensorView2 L n xs with
      | nil => simp
      | cons r rest =>
        have hr : r ∈ tensorView2 L n xs := by
          rw [hV]
          exact List.mem_cons_self r rest
        have := hrect r hr
        rw [List.headD_cons, this, hn0]
    have hB : (SequenceIterator.make seq bptt L rand flat).batches = [] := by
      rw [hmake]
      simp only [tensorT, hV0, List.range_zero, List.map_nil]
    refine ⟨?_, ?_, ?_, ?_⟩
    · rw [htl, hB, hn0]
      rfl
    · rw [hB, hn0]
      rfl
    · intro row hrow
      rw [hB] at hrow
      exact absurd hrow (List.not_mem_nil row)
    · rw [hB, hxs0, hn0]
      simp [tensorT]
  · obtain ⟨r, rest, hV⟩ : ∃ r rest, tensorView2 L n xs = r :: rest := by
      cases hV : tensorView2 L n xs with
      | nil =>
        rw [hV] at hVlen
        simp at hVlen
        omega
      | cons r rest => exact ⟨r, rest, rfl⟩
    have hheadlen : ((tensorView2 L n xs).headD []).length = n := by
      rw [hV, List.headD_cons]
      refine hrect r ?_
      rw [hV]
      exact List.mem_cons_self r rest
    have hBlen : (tensorT (tensorView2 L n xs)).length = n := by
      rw [tensorT_length, hheadlen]
    have hTT : tensorT (tensorT (tensorView2 L n xs)) = tensorView2 L n xs :=
      tensorT_tensorT hnpos hrect
    refine ⟨?_, ?_, ?_, ?_⟩
    · rw [htl, hmake, hBlen]
    · rw [hmake, hBlen]
    · intro row hrow
      rw [hmake] at hrow
      have hlen := tensorT_row_length _ row hrow
      rw [hVlen] at hlen
      exact hlen
    · rw [hmake, hTT]
      have hfl : (tensorView2 L n xs).flatten = xs.take (L * n) :=
        flatten_range_chunks xs n L
      rw [hfl, hxs0, List.take_take, Nat.mul_comm L n, Nat.min_self]

/-- Witness for the C5 theorem: 7 tokens in 2 lanes give 3 lines per lane,
a 3-by-2 matrix, and column-major flattening recovers the first 6 tokens. -/
theorem make_reshape_colMajor_witness :
    1 ≤ 2 ∧
    ((SequenceIterator.make [0, 1, 2, 3, 4, 5, 6] 10 2 none true).total_lines
        = ([0, 1, 2, 3, 4, 5, 6] : List ℤ).length / 2 ∧
      (SequenceIterator.make [0, 1, 2, 3, 4, 5, 6] 10 2 none true).batches.length
        = ([0, 1, 2, 3, 4, 5, 6] : List ℤ).length / 2 ∧
      (∀ row ∈ (SequenceIterator.make [0, 1, 2, 3, 4, 5, 6] 10 2 none true).batches,
        row.length = 2) ∧
      (tensorT (SequenceIterator.make [0, 1, 2, 3, 4, 5, 6] 10 2 none true).batches).flatten
        = ([0, 1, 2, 3, 4, 5, 6] : List ℤ).take
            (([0, 1, 2, 3, 4, 5, 6] : List ℤ).length / 2 * 2)) :=
  ⟨by decide, make_reshape_colMajor [0, 1, 2, 3, 4, 5, 6] 10 2 none true (by decide)⟩

/-- C1: setting `random_length = False` does NOT disable window
randomization, because `get_sequence_length` tests `random_length is None`.
At `bptt = 10`, uniform draw `0` and normal draw `bptt + 5 = 15`, the
length comes out 15, not the configured 10; only `random_length = None`
deterministically returns `bptt`. -/
theorem get_sequence_length_false_still_randomized :
    (SequenceIterator.make [0, 1, 2, 3] 10 1 (some false) true).get_sequence_length 0 1
        = 15 ∧
    (SequenceIterator.make [0, 1, 2, 3] 10 1 (some false) true).bptt = 10 ∧
    (SequenceIterator.make [0, 1, 2, 3] 10 1 none true).get_sequence_length 0 1 = 10 := by
  refine ⟨?_, rfl, by decide⟩
  simp only [SequenceIterator.get_sequence_length, SequenceIterator.make, pyInt]
  norm_num

/-- Helper: a matrix whose rows are all empty transposes to the empty
matrix (there is nothing to read column-wise). -/
theorem tensorT_eq_nil_of_rows_nil {m : List (List ℤ)} (h : ∀ row ∈ m, row.length = 0) :
    tensorT m = [] := by
  have h0 : (m.headD []).length = 0 := by
    cases m with
    | nil => simp
    | cons r rest =>
      rw [List.headD_cons]
      exact h r (List.mem_cons_self r rest)
  simp only [tensorT, h0, List.range_zero, List.map_nil]

/-- C7: a sequence shorter than the lane count gives zero usable lines:
construction succeeds (no division or bounds error is even expressible
here, and `lines_per_lane = 0`), the iterator is exhausted from the start,
and the first request yields no batch. -/
theorem make_short_seq_exhausted (seq : List ℤ) (bptt L : ℕ) (rand : Option Bool)
    (flat : Bool) (u eps : ℚ) (hshort : seq.length < L) :
    (SequenceIterator.make seq bptt L rand flat).total_lines = 0 ∧
    (SequenceIterator.make seq bptt L rand flat).completed = true ∧
    (SequenceIterator.make seq bptt L rand flat).next u eps = none := by
  have hn : seq.length / L = 0 := Nat.div_eq_of_lt hshort
  have hB : (SequenceIterator.make seq bptt L rand flat).batches = [] := by
    show tensorT (tensorView2 L (seq.length / L) (seq.take (seq.length / L * L))) = []
    apply tensorT_eq_nil_of_rows_nil
    intro row hrow
    simp only [tensorView2, hn, List.mem_map, List.mem_range] at hrow
    obtain ⟨i, _, rfl⟩ := hrow
    simp
  have htl : (SequenceIterator.make seq bptt L rand flat).total_lines = 0 := by
    show (SequenceIterator.make seq bptt L rand flat).batches.length = 0
    rw [hB]
    rfl
  have hcl : (SequenceIterator.make seq bptt L rand flat).curr_line = 0 := rfl
  have hc : (SequenceIterator.make seq bptt L rand flat).completed = true := by
    simp only [SequenceIterator.completed, htl, hcl]
    norm_num
  exact ⟨htl, hc, by simp [SequenceIterator.next, hc]⟩

/-- Witness for the C7 theorem: a 1-token sequence with 4 lanes yields zero
lines, immediate exhaustion and no batch. -/
theorem make_short_seq_exhausted_witness :
    ([7] : List ℤ).length < 4 ∧
    ((SequenceIterator.make [7] 10 4 none true).total_lines = 0 ∧
      (SequenceIterator.make [7] 10 4 none true).completed = true ∧
      (SequenceIterator.make [7] 10 4 none true).next 0 0 = none) :=
  ⟨by decide, make_short_seq_exhausted [7] 10 4 none true 0 0 (by decide)⟩

/-- C3: the emitted batch is the `w`-row input block at the cursor and the
target block shifted exactly one row forward, where `w` is the capped
window length: input row `j` is matrix row `i + j` and target row `j` is
matrix row `i + 1 + j` (whole rows, hence for every lane); with
`flatten_target` the target block is additionally flattened row-major. -/
theorem get_batch_shift (it : SequenceIterator) (s : ℤ) (j : ℕ)
    (hj : j < it.cappedLen s) :
    (it.get_batch s).1 = (it.batches.drop it.curr_line).take (it.cappedLen s) ∧
    (it.get_batch s).2 =
      (if it.flatten_target
        then Target.flat
          ((it.batches.drop (it.curr_line + 1)).take (it.cappedLen s)).flatten
        else Target.mat ((it.batches.drop (it.curr_line + 1)).take (it.cappedLen s))) ∧
    ((it.batches.drop it.curr_line).take (it.cappedLen s))[j]? =
      it.batches[it.curr_line + j]? ∧
    ((it.batches.drop (it.curr_line + 1)).take (it.cappedLen s))[j]? =
      it.batches[it.curr_line + 1 + j]? := by
  refine ⟨rfl, rfl, ?_, ?_⟩
  · rw [List.getElem?_take_of_lt hj, List.getElem?_drop]
  · rw [List.getElem?_take_of_lt hj, List.getElem?_drop]

/-- Witness for the C3 theorem on `itMid` with a drawn length of 5 (capped
to 1). -/
theorem get_batch_shift_witness :
    0 < itMid.cappedLen 5 ∧
    ((itMid.get_batch 5).1 = (itMid.batches.drop itMid.curr_line).take (itMid.cappedLen 5) ∧
      (itMid.get_batch 5).2 =
        (if itMid.flatten_target
          then Target.flat
            ((itMid.batches.drop (itMid.curr_line + 1)).take (itMid.cappedLen 5)).flatten
          else Target.mat ((itMid.batches.drop (itMid.curr_line + 1)).take (itMid.cappedLen 5))) ∧
      ((itMid.batches.drop itMid.curr_line).take (itMid.cappedLen 5))[0]? =
        itMid.batches[itMid.curr_line + 0]? ∧
      ((itMid.batches.drop (itMid.curr_line + 1)).take (itMid.cappedLen 5))[0]? =
        itMid.batches[itMid.curr_line + 1 + 0]?) :=
  ⟨by decide, get_batch_shift itMid 5 0 (by decide)⟩

/-- Helper: the `completed` flag holds exactly when the row cursor has
reached `total_lines - 1` or the iteration counter has reached
`total_iters`. -/
theorem completed_iff (it : SequenceIterator) :
    it.completed = true ↔
      ((it.total_lines : ℤ) - 1 ≤ (it.curr_line : ℤ) ∨
        it.total_iters ≤ (it.curr_iter : ℤ)) := by
  simp only [SequenceIterator.completed]
  split_ifs with h1 h2
  · simpa using Or.inl h1
  · simpa using Or.inr h2
  · constructor
    · intro h
      simp at h
    · intro h
      rcases h with h | h
      · exact absurd h h1
      · exact absurd h h2

/-- Helper: with randomization on (`random_length` not `None`) the drawn
length is at least 5; with it off it equals `bptt`.  Either way it is
positive as soon as `bptt ≥ 1`. -/
theorem get_sequence_length_pos (it : SequenceIterator) (u eps : ℚ)
    (hb : 1 ≤ it.bptt) : 1 ≤ it.get_sequence_length u eps := by
  rcases hr : it.random_length with _ | b
  · simp only [SequenceIterator.get_sequence_length, hr]
    exact_mod_cast hb
  · simp only [SequenceIterator.get_sequence_length, hr]
    exact le_trans (by norm_num) (le_max_left _ _)

/-- C2: a batch is emitted exactly when neither exhaustion condition holds:
if `curr_line >= total_lines - 1` or `curr_iter >= total_iters` the
iterator signals exhaustion (`none`, the embedding of `StopIteration`)
instead of a batch, and otherwise a batch comes out with a strictly larger
`curr_line` and the iteration count bumped by one. -/
theorem next_iff_completed (it : SequenceIterator) (u eps : ℚ) (hb : 1 ≤ it.bptt) :
    (((it.total_lines : ℤ) - 1 ≤ (it.curr_line : ℤ) ∨
        it.total_iters ≤ (it.curr_iter : ℤ)) →
      it.next u eps = none) ∧
    (¬((it.total_lines : ℤ) - 1 ≤ (it.curr_line : ℤ) ∨
        it.total_iters ≤ (it.curr_iter : ℤ)) →
      ∃ b it', it.next u eps = some (b, it') ∧
        it.curr_line < it'.curr_line ∧ it'.curr_iter = it.curr_iter + 1) := by
  constructor
  · intro h
    have hc : it.completed = true := (completed_iff it).mpr h
    simp [SequenceIterator.next, hc]
  · intro h
    have hc : it.completed = false := by
      cases hcb : it.completed
      · rfl
      · exact absurd ((completed_iff it).mp hcb) h
    have hseq : 1 ≤ it.get_sequence_length u eps := get_sequence_length_pos it u eps hb
    refine ⟨it.get_batch (it.get_sequence_length u eps),
      { it with curr_line := it.curr_line + (it.get_sequence_length u eps).toNat,
                curr_iter := it.curr_iter + 1 }, ?_, ?_, rfl⟩
    · simp [SequenceIterator.next, hc]
    · show it.curr_line < it.curr_line + (it.get_sequence_length u eps).toNat
      omega

/-- Witness for the C2 theorem on a fresh 3-line iterator with `bptt = 1`. -/
theorem next_iff_completed_witness :
    1 ≤ itFresh.bptt ∧
    ((((itFresh.total_lines : ℤ) - 1 ≤ (itFresh.curr_line : ℤ) ∨
        itFresh.total_iters ≤ (itFresh.curr_iter : ℤ)) →
      itFresh.next 0 0 = none) ∧
    (¬((itFresh.total_lines : ℤ) - 1 ≤ (itFresh.curr_line : ℤ) ∨
        itFresh.total_iters ≤ (itFresh.curr_iter : ℤ)) →
      ∃ b it', itFresh.next 0 0 = some (b, it') ∧
        itFresh.curr_line < it'.curr_line ∧ it'.curr_iter = itFresh.curr_iter + 1)) :=
  ⟨by decide, next_iff_completed itFresh 0 0 (by decide)⟩

/-- C9: with randomization on the drawn length is at least 5, but
`get_batch` caps the row count at `total_lines - 1 - curr_line`: on a
non-exhausted state every emitted batch has exactly the capped number of
rows, that count is at least 1 and at most the drawn length, and the
target block stops at row `total_lines - 1`. -/
theorem emitted_batch_bounds (it : SequenceIterator) (s : ℤ) (u eps : ℚ) (b : Bool)
    (hwf : it.total_lines = it.batches.length)
    (hnc : it.completed = false) (hs : 1 ≤ s)
    (hrl : it.random_length = some b) :
    5 ≤ it.get_sequence_length u eps ∧
    (it.get_batch s).1.length = it.cappedLen s ∧
    1 ≤ it.cappedLen s ∧
    (it.cappedLen s : ℤ) ≤ s ∧
    it.curr_line + 1 + it.cappedLen s ≤ it.total_lines := by
  have hlt : (it.curr_line : ℤ) < (it.total_lines : ℤ) - 1 := by
    by_contra hge
    have := (completed_iff it).mpr (Or.inl (by omega))
    rw [hnc] at this
    cases this
  have hcap : (it.cappedLen s : ℤ) = min s ((it.total_lines : ℤ) - 1 - it.curr_line) := by
    unfold SequenceIterator.cappedLen
    rw [Int.toNat_of_nonneg]
    omega
  refine ⟨?_, ?_, ?_, ?_, ?_⟩
  · simp only [SequenceIterator.get_sequence_length, hrl]
    exact le_max_left _ _
  · show ((it.batches.drop it.curr_line).take (it.cappedLen s)).length = it.cappedLen s
    rw [List.length_take, List.length_drop, ← hwf]
    omega
  · omega
  · omega
  · omega

/-- Witness for the C9 theorem: on `itMidR` a drawn length of 5 is capped
to a single emitted row, and the target stays within the matrix. -/
theorem emitted_batch_bounds_witness :
    itMidR.total_lines = itMidR.batches.length ∧
    itMidR.completed = false ∧
    (1 : ℤ) ≤ 5 ∧
    itMidR.random_length = some true ∧
    (5 ≤ itMidR.get_sequence_length 0 1 ∧
      (itMidR.get_batch 5).1.length = itMidR.cappedLen 5 ∧
      1 ≤ itMidR.cappedLen 5 ∧
      (itMidR.cappedLen 5 : ℤ) ≤ 5 ∧
      itMidR.curr_line + 1 + itMidR.cappedLen 5 ≤ itMidR.total_lines) :=
  ⟨by decide, by decide, by decide, by decide,
    emitted_batch_bounds itMidR 5 0 1 true (by decide) (by decide) (by decide) (by decide)⟩

/-! Trace lemmas for `Loop.run`. -/

theorem fire_events (cb : Ev → Bool → Bool) (e : Ev) (s : RunState) :
    (fire cb e s).events = s.events ++ [e] := rfl

theorem fire_stop (cb : Ev → Bool → Bool) (e : Ev) (s : RunState) :
    (fire cb e s).stop = cb e s.stop := rfl

theorem batchLoop_events {X Y : Type} (cb : Ev → Bool → Bool) (step : X → Y → Bool → ℚ)
    (a : ℚ) (epoch : ℕ) (nm : String) (isT : Bool) :
    ∀ (l : List (X × Y)) (s : RunState) (p : PhaseState),
      (batchLoop cb step a epoch nm isT l (s, p)).1.events
        = s.events ++ batchEvents epoch nm l
  | [], s, p => by simp [batchLoop, batchEvents]
  | (x, y) :: rest, s, p => by
    simp only [batchLoop]
    rw [batchLoop_events cb step a epoch nm isT rest]
    simp [fire, batchEvents, List.append_assoc]

theorem runEpoch_events {X Y : Type} (cb : Ev → Bool → Bool) (step : X → Y → Bool → ℚ)
    (a : ℚ) (trainData validData : List (X × Y)) (e : ℕ) (st : LoopState) :
    (runEpoch cb step a trainData validData e st).rs.events
      = st.rs.events ++ epochEvents e trainData validData := by
  simp only [runEpoch, phaseRun, fire_events, batchLoop_events]
  simp [epochEvents, List.append_assoc]

theorem loopEpochs_stop {X Y : Type} (cb : Ev → Bool → Bool) (step : X → Y → Bool → ℚ)
    (a : ℚ) (trainData validData : List (X × Y)) :
    ∀ (l : List ℕ) (st : LoopState), st.rs.stop = true →
      loopEpochs cb step a trainData validData l st = st
  | [], _, _ => rfl
  | e :: rest, st, h => by simp [loopEpochs, h]

theorem loopEpochs_append {X Y : Type} (cb : Ev → Bool → Bool) (step : X → Y → Bool → ℚ)
    (a : ℚ) (trainData validData : List (X × Y)) :
    ∀ (l1 l2 : List ℕ) (st : LoopState),
      loopEpochs cb step a trainData validData (l1 ++ l2) st
        = loopEpochs cb step a trainData validData l2
            (loopEpochs cb step a trainData validData l1 st)
  | [], l2, st => rfl
  | e :: rest, l2, st => by
    simp only [List.cons_append, loopEpochs]
    by_cases h : st.rs.stop
    · rw [if_pos h, if_pos h,
        loopEpochs_stop cb step a trainData validData l2 st h]
    · rw [if_neg h, if_neg h]
      exact loopEpochs_append cb step a trainData validData rest l2 _

theorem mem_batchEvents_epochIdx {X Y : Type} {e : Ev} {k : ℕ} {nm : String}
    {data : List (X × Y)} (h : e ∈ batchEvents k nm data) :
    e.epochIdx = some k := by
  simp only [batchEvents, List.mem_flatten, List.mem_map] at h
  obtain ⟨l, ⟨x, _, rfl⟩, hel⟩ := h
  simp only [List.mem_cons, List.not_mem_nil, or_false] at hel
  rcases hel with rfl | rfl
  · rfl
  · rfl

theorem mem_epochEvents_epochIdx {X Y : Type} {e : Ev} {k : ℕ}
    {trainData validData : List (X × Y)}
    (h : e ∈ epochEvents k trainData validData) : e.epochIdx = some k := by
  simp only [epochEvents, List.mem_append, List.mem_singleton] at h
  rcases h with ((((rfl | h) | rfl) | rfl) | h) | rfl
  · rfl
  · exact mem_batchEvents_epochIdx h
  · rfl
  · rfl
  · exact mem_batchEvents_epochIdx h
  · rfl

theorem loopEpochs_events_mem {X Y : Type} (cb : Ev → Bool → Bool)
    (step : X → Y → Bool → ℚ) (a : ℚ) (trainData validData : List (X × Y)) :
    ∀ (l : List ℕ) (st : LoopState) (e : Ev),
      e ∈ (loopEpochs cb step a trainData validData l st).rs.events →
      e ∈ st.rs.events ∨ ∃ j ∈ l, e.epochIdx = some j
  | [], _, _, h => Or.inl h
  | j0 :: rest, st, e, h => by
    by_cases hstop : st.rs.stop
    · left
      rwa [loopEpochs_stop cb step a trainData validData (j0 :: rest) st hstop] at h
    · rw [show loopEpochs cb step a trainData validData (j0 :: rest) st
          = loopEpochs cb step a trainData validData rest
              (runEpoch cb step a trainData validData j0 st) by
        simp [loopEpochs, hstop]] at h
      rcases loopEpochs_events_mem cb step a trainData validData rest _ e h with
        h1 | ⟨j, hj, hidx⟩
      · rw [runEpoch_events] at h1
        rcases List.mem_append.mp h1 with h2 | h2
        · exact Or.inl h2
        · exact Or.inr ⟨j0, by simp, mem_epochEvents_epochIdx h2⟩
      · exact Or.inr ⟨j, by simp [hj], hidx⟩

/-- C4: if a callback sets the stop flag during epoch `k` of an `n`-epoch
run (and the flag was still clear when epoch `k` started), the run's full
event trace is everything up to epoch `k` followed by the complete event
block of epoch `k` — both phases, the valid phase included — and then
training-end; in particular no epoch-start and no batch-start of epoch
`k + 1` ever fires.  The flag is consulted only at the top of the epoch
loop, never mid-epoch. -/
theorem run_stop_epoch_granularity {X Y : Type} (cb : Ev → Bool → Bool)
    (step : X → Y → Bool → ℚ) (a : ℚ) (trainData validData : List (X × Y))
    (n k : ℕ) (hk : k + 1 < n)
    (h1 : (stateBeforeEpoch cb step a trainData validData k).rs.stop = false)
    (h2 : (runEpoch cb step a trainData validData k
        (stateBeforeEpoch cb step a trainData validData k)).rs.stop = true) :
    (Loop.run cb step a trainData validData n false).rs.events
      = (stateBeforeEpoch cb step a trainData validData k).rs.events
        ++ epochEvents k trainData validData ++ [Ev.trainingEnd] ∧
    Ev.epochEnd k "valid" ∈ (Loop.run cb step a trainData validData n false).rs.events ∧
    (∀ p, Ev.epochStart (k + 1) p ∉
      (Loop.run cb step a trainData validData n false).rs.events) ∧
    (∀ p, Ev.batchStart (k + 1) p ∉
      (Loop.run cb step a trainData validData n false).rs.events) := by
  have hn' : n = (k + 1) + (n - (k + 1)) := by omega
  have hrange : List.range n
      = (List.range k ++ [k]) ++ (List.range (n - (k + 1))).map ((k + 1) + ·) := by
    conv_lhs => rw [hn']
    rw [List.range_add, List.range_succ]
  have hmid : loopEpochs cb step a trainData validData (List.range k ++ [k])
        ⟨fire cb .trainingStart ⟨false, []⟩, ⟨0, 0⟩, ⟨0, 0⟩⟩
      = runEpoch cb step a trainData validData k
          (stateBeforeEpoch cb step a trainData validData k) := by
    rw [loopEpochs_append]
    show loopEpochs cb step a trainData validData [k]
        (stateBeforeEpoch cb step a trainData validData k) = _
    simp [loopEpochs, h1]
  have hfull : loopEpochs cb step a trainData validData (List.range n)
        ⟨fire cb .trainingStart ⟨false, []⟩, ⟨0, 0⟩, ⟨0, 0⟩⟩
      = runEpoch cb step a trainData validData k
          (stateBeforeEpoch cb step a trainData validData k) := by
    rw [hrange, loopEpochs_append, hmid,
      loopEpochs_stop cb step a trainData validData _ _ h2]
  have hrun : (Loop.run cb step a trainData validData n false).rs.events
      = (stateBeforeEpoch cb step a trainData validData k).rs.events
        ++ epochEvents k trainData validData ++ [Ev.trainingEnd] := by
    show (fire cb .trainingEnd (loopEpochs cb step a trainData validData (List.range n)
        ⟨fire cb .trainingStart ⟨false, []⟩, ⟨0, 0⟩, ⟨0, 0⟩⟩).rs).events = _
    rw [fire_events, hfull, runEpoch_events]
  have hS0mem : ∀ e : Ev,
      e ∈ (stateBeforeEpoch cb step a trainData validData k).rs.events →
      e = Ev.trainingStart ∨ ∃ j ∈ List.range k, e.epochIdx = some j := by
    intro e he
    rcases loopEpochs_events_mem cb step a trainData validData (List.range k) _ e he with
      h | h
    · rw [fire_events] at h
      simp only [List.nil_append, List.mem_singleton] at h
      exact Or.inl h
    · exact Or.inr h
  refine ⟨hrun, ?_, ?_, ?_⟩
  · rw [hrun]
    simp [epochEvents]
  · intro p hmem
    rw [hrun] at hmem
    rcases List.mem_append.mp hmem with hmem | hmem
    · rcases List.mem_append.mp hmem with hmem | hmem
      · rcases hS0mem _ hmem with h | ⟨j, hj, hidx⟩
        · cases h
        · rw [List.mem_range] at hj
          simp only [Ev.epochIdx, Option.some.injEq] at hidx
          omega
      · have := mem_epochEvents_epochIdx hmem
        simp only [Ev.epochIdx, Option.some.injEq] at this
        omega
    · simp at hmem
  · intro p hmem
    rw [hrun] at hmem
    rcases List.mem_append.mp hmem with hmem | hmem
    · rcases List.mem_append.mp hmem with hmem | hmem
      · rcases hS0mem _ hmem with h | ⟨j, hj, hidx⟩
        · cases h
        · rw [List.mem_range] at hj
          simp only [Ev.epochIdx, Option.some.injEq] at hidx
          omega
      · have := mem_epochEvents_epochIdx hmem
        simp only [Ev.epochIdx, Option.some.injEq] at this
        omega
    · simp at hmem

/-- Witness for the C4 theorem: a 2-epoch run over one train batch and one
valid batch with a callback that requests a stop at epoch 0's first train
batch. -/
theorem run_stop_epoch_granularity_witness :
    0 + 1 < 2 ∧
    (stateBeforeEpoch cbStopAtFirstBatch stepOne Loop.alphaDefault
        [(0, 0)] [(1, 1)] 0).rs.stop = false ∧
    (runEpoch cbStopAtFirstBatch stepOne Loop.alphaDefault [(0, 0)] [(1, 1)] 0
        (stateBeforeEpoch cbStopAtFirstBatch stepOne Loop.alphaDefault
          [(0, 0)] [(1, 1)] 0)).rs.stop = true ∧
    ((Loop.run cbStopAtFirstBatch stepOne Loop.alphaDefault
          [(0, 0)] [(1, 1)] 2 false).rs.events
        = (stateBeforeEpoch cbStopAtFirstBatch stepOne Loop.alphaDefault
            [(0, 0)] [(1, 1)] 0).rs.events
          ++ epochEvents 0 [(0, 0)] [(1, 1)] ++ [Ev.trainingEnd] ∧
      Ev.epochEnd 0 "valid" ∈ (Loop.run cbStopAtFirstBatch stepOne Loop.alphaDefault
          [(0, 0)] [(1, 1)] 2 false).rs.events ∧
      (∀ p, Ev.epochStart (0 + 1) p ∉ (Loop.run cbStopAtFirstBatch stepOne
          Loop.alphaDefault [(0, 0)] [(1, 1)] 2 false).rs.events) ∧
      (∀ p, Ev.batchStart (0 + 1) p ∉ (Loop.run cbStopAtFirstBatch stepOne
          Loop.alphaDefault [(0, 0)] [(1, 1)] 2 false).rs.events)) :=
  ⟨by decide, by decide, by decide,
    run_stop_epoch_granularity cbStopAtFirstBatch stepOne Loop.alphaDefault
      [(0, 0)] [(1, 1)] 2 0 (by decide) (by decide) (by decide)⟩

/-- Helper: running the batch loop with a constant loss of 1 turns a
running average `v` into `v * a^m + (1 - a^m)` after `m` batches. -/
theorem batchLoop_const_one {X Y : Type} (cb : Ev → Bool → Bool) (a : ℚ)
    (epoch : ℕ) (nm : String) (isT : Bool) :
    ∀ (l : List (X × Y)) (s : RunState) (p : PhaseState),
      (batchLoop cb (fun _ _ _ => (1 : ℚ)) a epoch nm isT l (s, p)).2.avg_loss
        = p.avg_loss * a ^ l.length + (1 - a ^ l.length)
  | [], s, p => by simp [batchLoop]
  | (x, y) :: rest, s, p => by
    simp only [batchLoop]
    rw [batchLoop_const_one cb a epoch nm isT rest]
    simp only [List.length_cons]
    ring

/-- C8: every batch updates the phase's running loss as
`running_loss * alpha + loss * (1 - alpha)`, and `alpha` defaults to
`0.98 = 49/50`; consequently one epoch over 100 constant-loss-1 batches
starting from 0 leaves the train phase's running loss at exactly
`1 - 0.98^100`, which exceeds 0.85. -/
theorem run_ema_loss :
    (∀ (X Y : Type) (cb : Ev → Bool → Bool) (step : X → Y → Bool → ℚ) (a : ℚ)
      (epoch : ℕ) (nm : String) (isT : Bool) (x : X) (y : Y)
      (rest : List (X × Y)) (s : RunState) (p : PhaseState),
      batchLoop cb step a epoch nm isT ((x, y) :: rest) (s, p)
        = batchLoop cb step a epoch nm isT rest
            (fire cb (.batchEnd epoch nm) (fire cb (.batchStart epoch nm) s),
              ⟨p.avg_loss * a + step x y isT * (1 - a), p.batch_num + 1⟩)) ∧
    Loop.alphaDefault = 49 / 50 ∧
    (Loop.run cbNone (fun (_ : Unit) (_ : Unit) _ => (1 : ℚ)) Loop.alphaDefault
        (List.replicate 100 ((), ())) [] 1 false).train.avg_loss
      = 1 - (49 / 50) ^ 100 ∧
    (17 / 20 : ℚ) < 1 - (49 / 50) ^ 100 := by
  refine ⟨fun X Y cb step a epoch nm isT x y rest s p => rfl, rfl, ?_, by norm_num⟩
  have hr1 : List.range 1 = [0] := rfl
  set_option maxRecDepth 4000 in
  simp only [Loop.run, hr1, loopEpochs, runEpoch, phaseRun, fire_stop, cbNone]
  norm_num
  rw [batchLoop_const_one]
  simp [Loop.alphaDefault]
  ring

/-- C6: `Stepper.step` with `train = false` leaves the stepper state —
model parameters, optimizer state (gradients included) and schedule
counter — untouched, so stepping the same batch twice in eval mode returns
the identical plain scalar loss both times. -/
theorem stepper_eval_frame {P O X Y Z : Type} (model : P → X → Z)
    (lossFn : Z → Y → ℚ) (zeroGrad : O → O) (backward : P → O → O)
    (optStep : P → O → P × O) (schedStep : ℤ → ℤ)
    (st : StepperState P O) (x : X) (y : Y) :
    (Stepper.step model lossFn zeroGrad backward optStep schedStep st x y false).2 = st ∧
    (Stepper.step model lossFn zeroGrad backward optStep schedStep
        (Stepper.step model lossFn zeroGrad backward optStep schedStep st x y false).2
        x y false).1
      = (Stepper.step model lossFn zeroGrad backward optStep schedStep st x y false).1 :=
  ⟨rfl, rfl⟩

/-- C10: the stop flag is false only at construction and `run` never clears
it: under the CallbackGroup contract (observers can only set the flag), a
run entered with the flag already set — e.g. any run after one in which a
callback stopped the loop — fires exactly training-start and training-end,
executes zero epochs (no epoch or batch events), and leaves the flag
set. -/
theorem stop_persists_across_runs {X Y X2 Y2 : Type}
    (cb1 : Ev → Bool → Bool) (step1 : X → Y → Bool → ℚ) (a1 : ℚ)
    (tr1 va1 : List (X × Y)) (n1 : ℕ)
    (cb2 : Ev → Bool → Bool) (step2 : X2 → Y2 → Bool → ℚ) (a2 : ℚ)
    (tr2 va2 : List (X2 × Y2)) (n2 : ℕ)
    (hmono : CallbackGroup.monotone cb2)
    (hset : (Loop.run cb1 step1 a1 tr1 va1 n1 Loop.initStop).rs.stop = true) :
    Loop.initStop = false ∧
    (Loop.run cb2 step2 a2 tr2 va2 n2
        (Loop.run cb1 step1 a1 tr1 va1 n1 Loop.initStop).rs.stop).rs.events
      = [Ev.trainingStart, Ev.trainingEnd] ∧
    (Loop.run cb2 step2 a2 tr2 va2 n2
        (Loop.run cb1 step1 a1 tr1 va1 n1 Loop.initStop).rs.stop).rs.stop = true := by
  rw [hset]
  have hS0 : (fire cb2 .trainingStart ⟨true, []⟩).stop = true := by
    rw [fire_stop]
    exact hmono _
  have hskip : loopEpochs cb2 step2 a2 tr2 va2 (List.range n2)
        ⟨fire cb2 .trainingStart ⟨true, []⟩, ⟨0, 0⟩, ⟨0, 0⟩⟩
      = ⟨fire cb2 .trainingStart ⟨true, []⟩, ⟨0, 0⟩, ⟨0, 0⟩⟩ :=
    loopEpochs_stop cb2 step2 a2 tr2 va2 _ _ hS0
  refine ⟨rfl, ?_, ?_⟩
  · show (fire cb2 .trainingEnd (loopEpochs cb2 step2 a2 tr2 va2 (List.range n2)
        ⟨fire cb2 .trainingStart ⟨true, []⟩, ⟨0, 0⟩, ⟨0, 0⟩⟩).rs).events = _
    rw [hskip]
    rfl
  · show (fire cb2 .trainingEnd (loopEpochs cb2 step2 a2 tr2 va2 (List.range n2)
        ⟨fire cb2 .trainingStart ⟨true, []⟩, ⟨0, 0⟩, ⟨0, 0⟩⟩).rs).stop = true
    rw [hskip, fire_stop, hS0]
    exact hmono _

/-- Witness for the C10 theorem: a first run whose callback always requests
a stop, followed by a 3-epoch run with no observers. -/
theorem stop_persists_across_runs_witness :
    CallbackGroup.monotone cbNone ∧
    (Loop.run (fun _ _ => true) stepOne Loop.alphaDefault [] [] 0
        Loop.initStop).rs.stop = true ∧
    (Loop.initStop = false ∧
      (Loop.run cbNone stepOne Loop.alphaDefault [] [] 3
          (Loop.run (fun _ _ => true) stepOne Loop.alphaDefault [] [] 0
            Loop.initStop).rs.stop).rs.events
        = [Ev.trainingStart, Ev.trainingEnd] ∧
      (Loop.run cbNone stepOne Loop.alphaDefault [] [] 3
          (Loop.run (fun _ _ => true) stepOne Loop.alphaDefault [] [] 0
            Loop.initStop).rs.stop).rs.stop = true) :=
  ⟨fun _ => rfl, by decide,
    stop_persists_across_runs (fun _ _ => true) stepOne Loop.alphaDefault [] [] 0
      cbNone stepOne Loop.alphaDefault [] [] 3 (fun _ => rfl) (by decide)⟩

end PP
